import Mathlib

/-!
Verification development for the sb-rate-parity scraper.

The JavaScript source is shallowly embedded: the pure in-page computations
(price parsing, DOM extraction over extracted card/anchor/provider data,
advantage arithmetic, deduplication, retry classification) become Lean
functions over explicit data models, and the asynchronous control flow of
the resolver and the delivery pipeline becomes explicit state/trace passing
with `Except` for fallible steps.
-/

/-! ## Generic string helpers (JS semantics) -/

/-- JS `\s` character class (whitespace test used by `trim`, `\s+`, `\s?`). -/
def jsSpace (c : Char) : Bool := c.isWhitespace

/-- Helper for `collapseWs`: the flag records whether the previous character
was whitespace, so a run of whitespace emits a single space. -/
def collapseWsAux : Bool → List Char → List Char
  | _, [] => []
  | prevWs, c :: rest =>
    if jsSpace c then
      if prevWs then collapseWsAux true rest
      else ' ' :: collapseWsAux true rest
    else c :: collapseWsAux false rest

/-- JS `.replace(/\s+/g, " ")`: every maximal whitespace run becomes one space. -/
def collapseWs (l : List Char) : List Char := collapseWsAux false l

/-- JS `.trim()` on a character list: drop leading and trailing whitespace. -/
def jsTrim (l : List Char) : List Char :=
  ((l.dropWhile jsSpace).reverse.dropWhile jsSpace).reverse

/-- JS `.trim()` on strings. -/
def jsTrimStr (s : String) : String := String.mk (jsTrim s.toList)

/-- JS `.toLowerCase()` (ASCII-adequate model). -/
def jsLower (s : String) : String := String.mk (s.toList.map Char.toLower)

/-- JS `.replace(/\s+/g, " ").trim()`, as used on DOM text content. -/
def normSpace (s : String) : String := String.mk (jsTrim (collapseWs s.toList))

/-- The `norm` helper of `extractSelectedDatesPrice`:
`(s || "").toLowerCase().replace(/\s+/g, " ").trim()`. -/
def jsNorm (s : String) : String :=
  String.mk (jsTrim (collapseWs (s.toList.map Char.toLower)))

/-- Occurrence test for a character segment inside a list (needle first). -/
def containsSeg (needle : List Char) : List Char → Bool
  | [] => needle.isEmpty
  | c :: rest => needle.isPrefixOf (c :: rest) || containsSeg needle rest

/-- JS `haystack.includes(needle)`. -/
def strIncludes (haystack needle : String) : Bool :=
  containsSeg needle.toList haystack.toList

/-! ## Money/Text Normalizer -/

/-- Character class `[\d,]` of the price regex. -/
def digitOrComma (c : Char) : Bool := c.isDigit || c = ','

/-- First match of the JS regex `\$\s?(\d[\d,]*)`: scan for a dollar sign
followed by at most one whitespace character and a digit, and return the
capture group `\d[\d,]*` (greedy). `none` when the pattern never matches. -/
def priceMatchCapture : List Char → Option (List Char)
  | [] => none
  | c :: rest =>
    if c = '$' then
      match rest with
      | [] => none
      | d :: rest2 =>
        if d.isDigit then some (d :: rest2.takeWhile digitOrComma)
        else if jsSpace d then
          match rest2 with
          | [] => none
          | e :: rest3 =>
            if e.isDigit then some (e :: rest3.takeWhile digitOrComma)
            else priceMatchCapture rest
        else priceMatchCapture rest
    else priceMatchCapture rest

/-- JS `Number` on a nonempty digit string (the capture with commas removed). -/
def digitsToNat (l : List Char) : Nat :=
  l.foldl (fun a c => 10 * a + (c.toNat - '0'.toNat)) 0

/-- Test `/\$\s?\d/.test(t)`: succeeds exactly when the full price regex has
a match. -/
def priceTest (t : String) : Bool := (priceMatchCapture t.toList).isSome

/-- Test `/nightly/i.test(t)`. -/
def nightlyTest (t : String) : Bool := strIncludes (jsLower t) "nightly"

/-- The `parsePrice` helper of `extractMajorProviderPrice`
(src/fetchGoogleHotels.js): `if (!text) return null;` then collapse
whitespace, trim, match `\$\s?(\d[\d,]*)` and convert the capture with
commas removed via `Number`. -/
def parsePrice (text : String) : Option Nat :=
  if text = "" then none
  else
    (priceMatchCapture (normSpace text).toList).map
      (fun cap => digitsToNat (cap.filter Char.isDigit))

/-- The separator string `" - "` used by `cleanCity`. -/
def citySep : List Char := [' ', '-', ' ']

/-- JS `String.prototype.split(" - ")[0]`: the portion before the first
occurrence of the separator (the whole list when the separator is absent). -/
def takeBeforeSep : List Char → List Char
  | [] => []
  | c :: rest =>
    if citySep.isPrefixOf (c :: rest) then [] else c :: takeBeforeSep rest

/-- `cleanCity` (src/fetchGoogleHotels.js): `if (!cityRaw) return "";` then
`cityRaw.split(" - ")[0].trim()`. -/
def cleanCity (cityRaw : String) : String :=
  if cityRaw = "" then "" else String.mk (jsTrim (takeBeforeSep cityRaw.toList))

/-! ## URL encoding (JS `encodeURIComponent`) -/

/-- Characters that `encodeURIComponent` leaves unescaped. -/
def uriUnescaped (c : Char) : Bool :=
  c.isAlpha || c.isDigit ||
    c ∈ ['-', '_', '.', '!', '~', '*', Char.ofNat 39, '(', ')']

/-- Uppercase hexadecimal digit. -/
def hexDigitChar (n : Nat) : Char :=
  if n < 10 then Char.ofNat ('0'.toNat + n) else Char.ofNat ('A'.toNat + n - 10)

/-- UTF-8 bytes of one code point. -/
def utf8Bytes (c : Char) : List Nat :=
  let n := c.toNat
  if n < 0x80 then [n]
  else if n < 0x800 then [0xC0 + n / 0x40, 0x80 + n % 0x40]
  else if n < 0x10000 then
    [0xE0 + n / 0x1000, 0x80 + (n / 0x40) % 0x40, 0x80 + n % 0x40]
  else
    [0xF0 + n / 0x40000, 0x80 + (n / 0x1000) % 0x40,
     0x80 + (n / 0x40) % 0x40, 0x80 + n % 0x40]

/-- Percent-escape of one byte, `%XX` with uppercase hex. -/
def percentByte (b : Nat) : List Char :=
  ['%', hexDigitChar (b / 16), hexDigitChar (b % 16)]

/-- JS `encodeURIComponent` over a character list. -/
def encodeURIComponentList (l : List Char) : List Char :=
  l.foldr
    (fun c acc =>
      (if uriUnescaped c then [c] else (utf8Bytes c).flatMap percentByte) ++ acc)
    []

/-- JS `encodeURIComponent`. -/
def encodeURIComponent (s : String) : String :=
  String.mk (encodeURIComponentList s.toList)

/-! ## Reference Price Resolver (src/fetchGoogleHotels.js, first variant) -/

/-- Month abbreviations of the `MMM` format token. -/
def monthAbbrevs : List String :=
  ["Jan", "Feb", "Mar", "Apr", "May", "Jun",
   "Jul", "Aug", "Sep", "Oct", "Nov", "Dec"]

/-- Model of `dayjs(iso).format("MMM D")` on ISO `YYYY-MM-DD` input
(external library collaborator): e.g. `"2025-11-26"` becomes `"Nov 26"`.
Ill-formed input renders as dayjs would render an invalid date. -/
def formatMMMD (iso : String) : String :=
  match iso.toList with
  | [_, _, _, _, '-', m1, m2, '-', d1, d2] =>
    if m1.isDigit && m2.isDigit && d1.isDigit && d2.isDigit then
      let m := 10 * (m1.toNat - '0'.toNat) + (m2.toNat - '0'.toNat)
      let d := 10 * (d1.toNat - '0'.toNat) + (d2.toNat - '0'.toNat)
      if 1 ≤ m && m ≤ 12 then
        ((monthAbbrevs.get? (m - 1)).getD "") ++ " " ++ toString d
      else "Invalid Date"
    else "Invalid Date"
  | _ => "Invalid Date"

/-- `makeGoogleSearchUrl` (src/fetchGoogleHotels.js): the query joins the
hotel name and the cleaned city with a space and is URI-encoded; empty
parts are skipped (`if (name) qParts.push(name)` on JS falsy strings). -/
def makeGoogleSearchUrl (name city : String) : String :=
  let qParts :=
    (if name = "" then [] else [name]) ++
      (if cleanCity city = "" then [] else [cleanCity city])
  "https://www.google.com/travel/search?hl=en&gl=us&q=" ++
    encodeURIComponent (String.intercalate " " qParts)

/-- One `a[aria-label]` anchor of the rendered results page: its
`aria-label` attribute and the text content of its `span, div` descendants
in document order. -/
structure AnchorEl where
  ariaLabel : String
  nodeTexts : List String
deriving DecidableEq

/-- One `.ADs2Tc` provider block: the text of its `h3.RjilDd` name element
(`none` when the element is absent) and the texts of its `span.iqYCVb`
price spans. -/
structure ProviderBlock where
  nameEl : Option String
  spanTexts : List String
deriving DecidableEq

/-- The data the resolver reads from the live page: the anchor cards, the
provider blocks, and the values read back from the check-in / check-out
inputs after date selection (already defaulted to `""` by the
`inEl?.value || ""` read-back in `setDateRangeInUi`). -/
structure GoogleDom where
  anchors : List AnchorEl
  providerBlocks : List ProviderBlock
  uiCheckIn : String
  uiCheckOut : String
deriving DecidableEq

/-- The texts collected inside one anchor: each node text is whitespace
collapsed and trimmed, and only texts passing `/\$\s?\d/` are kept. -/
def anchorCandidateTexts (a : AnchorEl) : List String :=
  (a.nodeTexts.map normSpace).filter priceTest

/-- Price extraction for one anchor of `extractSelectedDatesPrice`: fuzzy
label match (`label` contains target or target contains `label`, both
normalized), then prefer a `"$XX nightly"` text over the first price text;
`none` reproduces every `continue` of the source loop. -/
def anchorPrice (target : String) (a : AnchorEl) : Option Nat :=
  let labelNorm := jsNorm a.ariaLabel
  if !(strIncludes labelNorm target || strIncludes target labelNorm) then none
  else
    match anchorCandidateTexts a with
    | [] => none
    | t0 :: ts =>
      let chosen := (((t0 :: ts).find? fun t => nightlyTest t && priceTest t)).getD t0
      (priceMatchCapture chosen.toList).map
        (fun cap => digitsToNat (cap.filter Char.isDigit))

/-- `extractSelectedDatesPrice` (src/fetchGoogleHotels.js): first anchor
whose fuzzy-matched card yields a price wins; `null` when the hotel name is
falsy or no anchor matches. -/
def extractSelectedDatesPrice (dom : GoogleDom) (hotelName : String) : Option Nat :=
  if hotelName = "" then none
  else dom.anchors.findSome? (anchorPrice (jsNorm hotelName))

/-- The fixed allow-list `majorBrands` of `extractMajorProviderPrice`. -/
def majorBrands : List String :=
  ["expedia", "booking.com", "priceline", "kayak",
   "hotels.com", "orbitz", "travelocity"]

/-- All finite prices parsed from the `span.iqYCVb` spans of one block. -/
def blockPrices (b : ProviderBlock) : List Nat :=
  b.spanTexts.filterMap parsePrice

/-- Per-block step of `extractMajorProviderPrice`: skip blocks without a
name element, skip non-major providers (trimmed lowercased name must
contain some allow-listed brand), and take `Math.min` of the block's
prices; `none` when the block contributes nothing. -/
def blockMinPrice (b : ProviderBlock) : Option Nat :=
  match b.nameEl with
  | none => none
  | some nameText =>
    let providerName := jsLower (jsTrimStr nameText)
    if !(majorBrands.any fun brand => strIncludes providerName brand) then none
    else
      match blockPrices b with
      | [] => none
      | p :: ps => some (ps.foldl min p)

/-- `extractMajorProviderPrice` (src/fetchGoogleHotels.js): `Math.min`
across the per-block minima of major-provider blocks, `null` when no block
matched. -/
def extractMajorProviderPrice (dom : GoogleDom) : Option Nat :=
  match dom.providerBlocks.filterMap blockMinPrice with
  | [] => none
  | p :: ps => some (ps.foldl min p)

deriving instance DecidableEq for Except

/-- `ReferencePriceResult`: the object returned by
`getGoogleHotelsPriceSimple` on both the date-mismatch branch and the
success branch. -/
structure ReferencePriceResult where
  check_in : String
  check_out : String
  url : String
  google_best : Option Nat
  google_major_best : Option Nat
deriving DecidableEq

/-- Observable steps of one resolver run, recorded so that theorems can
state which page work happened on a given control path. -/
inductive ResolveStep
  | openPage
  | runBestExtraction
  | runMajorExtraction
deriving DecidableEq

/-- Message of the guard `throw new Error("getGoogleHotelsPriceSimple:
checkIn and checkOut are required")`. -/
def requiredErrMsg : String :=
  "getGoogleHotelsPriceSimple: checkIn and checkOut are required"

/-- Error used when the browser-side evaluation of the major-provider step
rejects (`page.evaluate` can reject; the source has no try/catch around
this call). -/
def evaluateErrMsg : String := "page.evaluate rejected"

/-- `getGoogleHotelsPriceSimple` (src/fetchGoogleHotels.js): the requested
dates are mandatory; after the UI date selection the read-back input values
are compared against `dayjs(...).format("MMM D")` via `includes`, and a
mismatch returns both price fields as `null` before any extraction; on a
match, `extractSelectedDatesPrice` then `extractMajorProviderPrice` run.
`majorEvalOk` models whether the browser evaluation of the major-provider
step resolves; the source wraps it in no try/catch, so a rejection
propagates out of the function. The returned list is the trace of steps
performed. -/
def getGoogleHotelsPriceSimple (hotelName city checkIn checkOut : String)
    (dom : GoogleDom) (majorEvalOk : Bool) :
    Except String ReferencePriceResult × List ResolveStep :=
  if checkIn = "" ∨ checkOut = "" then (Except.error requiredErrMsg, [])
  else
    let url := makeGoogleSearchUrl hotelName city
    let wantInShort := formatMMMD checkIn
    let wantOutShort := formatMMMD checkOut
    let datesMatch :=
      strIncludes dom.uiCheckIn wantInShort && strIncludes dom.uiCheckOut wantOutShort
    if datesMatch then
      let google_best := extractSelectedDatesPrice dom hotelName
      if majorEvalOk then
        (Except.ok
          { check_in := checkIn, check_out := checkOut, url := url,
            google_best := google_best,
            google_major_best := extractMajorProviderPrice dom },
         [ResolveStep.openPage, ResolveStep.runBestExtraction,
          ResolveStep.runMajorExtraction])
      else
        (Except.error evaluateErrMsg,
         [ResolveStep.openPage, ResolveStep.runBestExtraction])
    else
      (Except.ok
        { check_in := checkIn, check_out := checkOut, url := url,
          google_best := none, google_major_best := none },
       [ResolveStep.openPage])

/-- A listing container for the specification's strategy (b): a title
element text plus the container's text nodes. -/
structure ListingContainer where
  titleText : String
  nodeTexts : List String
deriving DecidableEq

/-- Modelled from the spec: the card-title extraction strategy of §4.3 step
5b ("Locate a listing container whose title element fuzzily matches the
property name, then scan its text nodes the same way"), which has no
counterpart in the source. It is used only to compare the specified
fallback chain against the implemented one. -/
def cardTitleStrategy (containers : List ListingContainer) (hotelName : String) :
    Option Nat :=
  if hotelName = "" then none
  else
    let target := jsNorm hotelName
    containers.findSome? fun cont =>
      let titleNorm := jsNorm cont.titleText
      if !(strIncludes titleNorm target || strIncludes target titleNorm) then none
      else
        match (cont.nodeTexts.map normSpace).filter priceTest with
        | [] => none
        | t0 :: ts =>
          let chosen := (((t0 :: ts).find? fun t => nightlyTest t && priceTest t)).getD t0
          (priceMatchCapture chosen.toList).map
            (fun cap => digitsToNat (cap.filter Char.isDigit))

/-! ## Row Builder (src/index.js) -/

/-- The advantage computation of `main` (src/index.js): with both operands
present, `adv$ = referencePrice - ownPrice`, and additionally
`advPct = adv$ / referencePrice` when `referencePrice > 0`; otherwise the
outputs stay `null`. -/
def advantagePair (ownPrice refPrice : Option ℚ) : Option ℚ × Option ℚ :=
  match ownPrice, refPrice with
  | some o, some r =>
    (some (r - o), if 0 < r then some ((r - o) / r) else none)
  | _, _ => (none, none)

/-- The two advantage pairs of one comparison row: SB vs Google best and SB
vs Google major best. -/
def rowAdvantages (sbPrice googleBest googleMajorBest : Option ℚ) :
    (Option ℚ × Option ℚ) × (Option ℚ × Option ℚ) :=
  (advantagePair sbPrice googleBest, advantagePair sbPrice googleMajorBest)

/-! ## Listing Discovery (src/scrapeSparrowBid.js) -/

/-- One extracted listing card (`ListingCandidate`). -/
structure ListingCandidate where
  name : String
  city : String
  priceRaw : Option String
  url : String
deriving DecidableEq

/-- The deduplication key of `pushUnique`:
`(h.name || "").toLowerCase() + "|" + (h.city || "").toLowerCase()`. -/
def dedupKey (c : ListingCandidate) : String :=
  jsLower c.name ++ "|" ++ jsLower c.city

/-- The mutable discovery accumulators `results` and `seen`. -/
structure DiscoveryState where
  results : List ListingCandidate
  seen : List String
deriving DecidableEq

/-- `pushUnique` (src/scrapeSparrowBid.js): append each unseen card, record
its key, and report `true` as soon as `results.length >= maxHotels` holds
after a push. The check runs only after a push, so a call entered at or
above the cap can still push one card. -/
def pushUnique (maxHotels : Nat) :
    DiscoveryState → List ListingCandidate → DiscoveryState × Bool
  | st, [] => (st, false)
  | st, h :: rest =>
    if dedupKey h ∈ st.seen then pushUnique maxHotels st rest
    else
      if maxHotels ≤ (st.results ++ [h]).length then
        (⟨st.results ++ [h], st.seen ++ [dedupKey h]⟩, true)
      else pushUnique maxHotels ⟨st.results ++ [h], st.seen ++ [dedupKey h]⟩ rest

/-- The pagination loop of `getSparrowHotels` (src/scrapeSparrowBid.js):
each later page's cards go through `pushUnique`, and the loop breaks when
the flag reports the cap (`if (done) break`). Page extraction, clicking and
the `maxPages` budget only determine which page lists arrive here. -/
def paginate (maxHotels : Nat) :
    DiscoveryState → List (List ListingCandidate) → DiscoveryState
  | st, [] => st
  | st, p :: ps =>
    if (pushUnique maxHotels st p).2 then (pushUnique maxHotels st p).1
    else paginate maxHotels (pushUnique maxHotels st p).1 ps

/-- Invariant of the discovery accumulators relative to the stream of cards
the loop has examined so far: `seen` is exactly the keys of `results` (in
order), those keys are duplicate-free, every examined card's key has been
recorded, and every accumulated candidate is the first examined card
carrying its key. -/
def DiscInv (stream : List ListingCandidate) (st : DiscoveryState) : Prop :=
  st.seen = st.results.map dedupKey ∧
  (st.results.map dedupKey).Nodup ∧
  (∀ x ∈ stream, dedupKey x ∈ st.seen) ∧
  (∀ c ∈ st.results, stream.find? (fun x => dedupKey x == dedupKey c) = some c)

/-- `getSparrowHotels` (src/scrapeSparrowBid.js) over the sequence of card
lists extracted per page: page 1 is collected with the `pushUnique` return
value ignored (`pushUnique(cards);`), then the pagination loop runs. -/
def getSparrowHotels (maxHotels : Nat)
    (pages : List (List ListingCandidate)) : List ListingCandidate :=
  match pages with
  | [] => []
  | p1 :: rest => (paginate maxHotels (pushUnique maxHotels ⟨[], []⟩ p1).1 rest).results

/-! ## Discovery navigation URL (src/scrapeSparrowBid.js vs part_008) -/

/-- The navigation of `getSparrowHotels` in src/scrapeSparrowBid.js:
`page.goto("https://www.sparrowbid.com/explore", ...)`. The function's
parameter object destructures only `maxHotels` and `maxPages`, so the
`checkIn` / `checkOut` passed by src/index.js are dropped and the URL never
depends on them. -/
def getSparrowHotelsNavUrl (_checkIn _checkOut : String) : String :=
  "https://www.sparrowbid.com/explore"

/-- `JSON.stringify(filtersObj)` for the filters object built by the
date-filtered `getSparrowHotels` variant (src/unnamed/part_008): literal
object with insertion-ordered keys and the two interpolated dates. -/
def sparrowFiltersJson (checkIn checkOut : String) : String :=
  "\x7b\"check_in_date\":\"" ++ checkIn ++
    "T06:00:00.000Z\",\"check_out_date\":\"" ++ checkOut ++
    "T06:00:00.000Z\",\"dateRange\":\"Exact dates\",\"adults\":2,\"child\":0," ++
    "\"place\":\x7b\"geoLocation\":\x7b\"lat\":\"\",\"lng\":\"\"\x7d," ++
    "\"address_1\":\"\",\"city\":\"\",\"state\":\"\",\"country\":\"\"," ++
    "\"zip\":\"\",\"label\":\"\"\x7d,\"page\":1\x7d"

/-- The date-filtered Explore URL of src/unnamed/part_008: the filters JSON
is URL-encoded twice and appended as the `filters` query parameter. -/
def sparrowFilteredExploreUrl (checkIn checkOut : String) : String :=
  "https://www.sparrowbid.com/explore?filters=" ++
    encodeURIComponent (encodeURIComponent (sparrowFiltersJson checkIn checkOut))

/-! ## Delivery Pipeline (src/unnamed/part_007) -/

/-- Webhook tuning constants of src/unnamed/part_007. -/
def BATCH_SIZE : Nat := 20

/-- Retry attempts per batch. -/
def MAX_RETRIES : Nat := 4

/-- Base delay for backoff in milliseconds. -/
def BASE_DELAY_MS : Nat := 2000

/-- What one POST attempt observes: an HTTP response with a status code, or
a thrown network error. -/
inductive WebhookResponse
  | http (status : Nat)
  | netError
deriving DecidableEq

/-- JS `res.ok`: status in the 2xx range. -/
def statusOk (s : Nat) : Bool := 200 ≤ s && s < 300

/-- The retry condition of `postRowsChunk`:
`res.status === 429 || (res.status >= 500 && res.status < 600)`. -/
def retriableStatus (s : Nat) : Bool := s = 429 || (500 ≤ s && s < 600)

/-- A response the attempt loop reacts to by sleeping and retrying: an HTTP
429/5xx (never a 2xx), or a thrown network error. -/
def transientResp : WebhookResponse → Bool
  | WebhookResponse.http s => !statusOk s && retriableStatus s
  | WebhookResponse.netError => true

/-- Final state of one batch. -/
inductive ChunkOutcome
  | delivered
  | abandoned
deriving DecidableEq

/-- Report of one `postRowsChunk` run: how many POST attempts were made,
whether the batch was delivered, and the backoff sleeps performed (ms). -/
structure ChunkReport where
  attempts : Nat
  outcome : ChunkOutcome
  sleeps : List Nat
deriving DecidableEq

/-- The attempt loop of `postRowsChunk` (src/unnamed/part_007): `respond a`
is what attempt number `a` observes; `fuel` is the number of loop
iterations left. A 2xx returns immediately; a 429/5xx sleeps
`BASE_DELAY_MS * 2^(attempt-1)` and retries; any other status returns at
once without retrying (`console.error(...); return;`); a thrown network
error sleeps the same backoff and retries. Exhausting the bound abandons
the chunk. -/
def postRowsChunkGo (respond : Nat → WebhookResponse) (attempt : Nat) :
    Nat → ChunkReport
  | 0 => ⟨attempt - 1, ChunkOutcome.abandoned, []⟩
  | fuel + 1 =>
    match respond attempt with
    | WebhookResponse.http s =>
      if statusOk s then ⟨attempt, ChunkOutcome.delivered, []⟩
      else if retriableStatus s then
        let r := postRowsChunkGo respond (attempt + 1) fuel
        ⟨r.attempts, r.outcome, BASE_DELAY_MS * 2 ^ (attempt - 1) :: r.sleeps⟩
      else ⟨attempt, ChunkOutcome.abandoned, []⟩
    | WebhookResponse.netError =>
      let r := postRowsChunkGo respond (attempt + 1) fuel
      ⟨r.attempts, r.outcome, BASE_DELAY_MS * 2 ^ (attempt - 1) :: r.sleeps⟩

/-- `postRowsChunk` (src/unnamed/part_007) for a nonempty chunk: attempts
are numbered from 1 up to `maxRetries`. -/
def postRowsChunk (maxRetries : Nat) (respond : Nat → WebhookResponse) :
    ChunkReport :=
  postRowsChunkGo respond 1 maxRetries

/-- Structural helper for `chunkRows`: the first argument is fuel, always
at least the list length at the call site, so the zero-fuel case is never
reached. -/
def chunkRowsGo (batchSize : Nat) : Nat → List α → List (List α)
  | _, [] => []
  | 0, _ :: _ => []
  | fuel + 1, r :: rest =>
    (r :: rest.take (batchSize - 1)) ::
      chunkRowsGo batchSize fuel (rest.drop (batchSize - 1))

/-- The batch slicing `rows.slice(i, i + BATCH_SIZE)` of `main`
(src/unnamed/part_007); meaningful for `batchSize ≥ 1` as in the source. -/
def chunkRows (batchSize : Nat) (l : List α) : List (List α) :=
  chunkRowsGo batchSize l.length l

/-- The delivery loop of `main` (src/unnamed/part_007): every chunk is
posted in order; `postRowsChunk` catches all its errors internally, so one
abandoned chunk never prevents the next from being posted. `respond i a` is
what chunk `i` observes on its attempt `a`. -/
def deliverAll (maxRetries : Nat) (respond : Nat → Nat → WebhookResponse) :
    List (List α) → Nat → List ChunkReport
  | [], _ => []
  | _ :: rest, idx =>
    postRowsChunk maxRetries (respond idx) :: deliverAll maxRetries respond rest (idx + 1)

/-! ## Quick concrete checks of the embedding -/

example : parsePrice "$1,234" = some 1234 := by decide

example : parsePrice "no price" = none := by decide

example : cleanCity "New York, US - 5385.12 mi away" = "New York, US" := by decide

example : encodeURIComponent "a b" = "a%20b" := by decide

example : strIncludes "Wed, Nov 26" "Nov 26" = true := by decide

example : formatMMMD "2025-11-26" = "Nov 26" := by decide

example :
    extractSelectedDatesPrice
      ⟨[⟨"Hotel X, 4 stars", ["junk", "$129 nightly", "$310 total"]⟩], [], "", ""⟩
      "Hotel X" = some 129 := by decide

example :
    extractMajorProviderPrice
      ⟨[], [⟨some "Expedia.com", ["$140", "$120"]⟩, ⟨some "SomeOTA", ["$5"]⟩], "", ""⟩
      = some 120 := by decide

example :
    postRowsChunk 4
      (fun a => if a ≤ 2 then WebhookResponse.http 429 else WebhookResponse.http 200) =
      ⟨3, ChunkOutcome.delivered, [2000, 4000]⟩ := by decide

example :
    postRowsChunk 4 (fun _ => WebhookResponse.http 500) =
      ⟨4, ChunkOutcome.abandoned, [2000, 4000, 8000, 16000]⟩ := by decide

example :
    getSparrowHotels 1
      [[⟨"A", "X", none, ""⟩], [⟨"B", "Y", none, ""⟩]] =
      [⟨"A", "X", none, ""⟩, ⟨"B", "Y", none, ""⟩] := by decide

example : chunkRows 2 [1, 2, 3, 4, 5] = [[1, 2], [3, 4], [5]] := by decide

/-! ## Supporting lemmas -/

theorem dollar_mem_of_priceMatchCapture (l cap : List Char)
    (h : priceMatchCapture l = some cap) : '$' ∈ l := by
  induction l with
  | nil => simp [priceMatchCapture] at h
  | cons c rest ih =>
    by_cases hc : c = '$'
    · subst hc
      exact List.mem_cons_self _ _
    · have hstep : priceMatchCapture (c :: rest) = priceMatchCapture rest := by
        show (if c = '$' then _ else priceMatchCapture rest) = priceMatchCapture rest
        exact if_neg hc
      rw [hstep] at h
      exact List.mem_cons_of_mem _ (ih h)

theorem mem_collapseWsAux (c : Char) (l : List Char) :
    ∀ b, c ∈ collapseWsAux b l → c ∈ l ∨ c = ' ' := by
  induction l with
  | nil => intro b h; simp [collapseWsAux] at h
  | cons x rest ih =>
    intro b h
    rw [collapseWsAux] at h
    by_cases hx : jsSpace x
    · rw [if_pos hx] at h
      by_cases hb : b
      · subst hb
        rw [if_pos rfl] at h
        rcases ih true h with h1 | h1
        · exact Or.inl (List.mem_cons_of_mem _ h1)
        · exact Or.inr h1
      · simp only [hb] at h
        rw [if_neg (by simp)] at h
        rcases List.mem_cons.mp h with h1 | h1
        · exact Or.inr h1
        · rcases ih true h1 with h2 | h2
          · exact Or.inl (List.mem_cons_of_mem _ h2)
          · exact Or.inr h2
    · rw [if_neg hx] at h
      rcases List.mem_cons.mp h with h1 | h1
      · exact Or.inl (h1 ▸ List.mem_cons_self _ _)
      · rcases ih false h1 with h2 | h2
        · exact Or.inl (List.mem_cons_of_mem _ h2)
        · exact Or.inr h2

theorem mem_of_mem_jsTrim (c : Char) (l : List Char) (h : c ∈ jsTrim l) : c ∈ l := by
  unfold jsTrim at h
  rw [List.mem_reverse] at h
  have h1 := (List.dropWhile_sublist (l := (l.dropWhile jsSpace).reverse) jsSpace).mem h
  rw [List.mem_reverse] at h1
  exact (List.dropWhile_sublist jsSpace).mem h1

theorem parsePrice_eq_none_of_no_dollar (t : String) (h : '$' ∉ t.toList) :
    parsePrice t = none := by
  unfold parsePrice
  by_cases ht : t = ""
  · rw [if_pos ht]
  · rw [if_neg ht]
    cases hcap : priceMatchCapture (normSpace t).toList with
    | none => rfl
    | some cap =>
      exfalso
      have h2 : '$' ∈ jsTrim (collapseWs t.toList) :=
        dollar_mem_of_priceMatchCapture _ _ hcap
      have h3 : '$' ∈ collapseWs t.toList := mem_of_mem_jsTrim _ _ h2
      rcases mem_collapseWsAux '$' t.toList false h3 with h5 | h5
      · exact h h5
      · exact absurd h5 (by decide)

theorem foldlMin_mem (p : Nat) (ps : List Nat) : ps.foldl min p ∈ p :: ps := by
  induction ps generalizing p with
  | nil => simp
  | cons q ps ih =>
    rw [List.foldl_cons]
    rcases List.mem_cons.mp (ih (min p q)) with h1 | h1
    · rw [h1]
      rcases min_choice p q with h2 | h2 <;> rw [h2]
      · exact List.mem_cons_self _ _
      · exact List.mem_cons_of_mem _ (List.mem_cons_self _ _)
    · exact List.mem_cons_of_mem _ (List.mem_cons_of_mem _ h1)

theorem foldlMin_le (p : Nat) (ps : List Nat) : ∀ x ∈ p :: ps, ps.foldl min p ≤ x := by
  induction ps generalizing p with
  | nil =>
    intro x hx
    rcases List.mem_cons.mp hx with h1 | h1
    · rw [h1]
      simp
    · simp at h1
  | cons q ps ih =>
    intro x hx
    rw [List.foldl_cons]
    have hbase : ps.foldl min (min p q) ≤ min p q :=
      ih (min p q) (min p q) (List.mem_cons_self _ _)
    rcases List.mem_cons.mp hx with h1 | h1
    · rw [h1]
      exact le_trans hbase (min_le_left _ _)
    · rcases List.mem_cons.mp h1 with h2 | h2
      · rw [h2]
        exact le_trans hbase (min_le_right _ _)
      · exact ih (min p q) x (List.mem_cons_of_mem _ h2)

theorem postRowsChunkGo_transient (respond : Nat → WebhookResponse) :
    ∀ fuel attempt,
      (∀ a, attempt ≤ a → a < attempt + fuel → transientResp (respond a) = true) →
      (postRowsChunkGo respond attempt fuel).attempts = attempt + fuel - 1 ∧
      (postRowsChunkGo respond attempt fuel).outcome = ChunkOutcome.abandoned := by
  intro fuel
  induction fuel with
  | zero =>
    intro attempt _
    simp [postRowsChunkGo]
  | succ fuel ih =>
    intro attempt h
    have ht := h attempt (le_refl _) (by omega)
    have ihres := ih (attempt + 1) (fun a ha1 ha2 => h a (by omega) (by omega))
    cases hr : respond attempt with
    | http s =>
      rw [hr] at ht
      simp only [transientResp, Bool.and_eq_true, Bool.not_eq_true'] at ht
      simp only [postRowsChunkGo, hr, ht.1, ht.2]
      simp only [Bool.false_eq_true, if_false, if_true]
      refine ⟨?_, ihres.2⟩
      rw [ihres.1]
      omega
    | netError =>
      simp only [postRowsChunkGo, hr]
      refine ⟨?_, ihres.2⟩
      rw [ihres.1]
      omega

/-! ## Claim theorems -/

/-- C5: the row builder computes `advantageCurrency = referencePrice -
ownPrice` only when both operands are present and `advantageFraction =
advantageCurrency / referencePrice` only when `referencePrice > 0`; a
missing operand yields a missing result; `ownPrice=100, referencePrice=150`
give `50` and `50/150`; `referencePrice=0` gives a `null` fraction; and the
two advantage pairs (vs best and vs major) are computed the same way. -/
theorem c5_row_advantage_math (o r : ℚ) (own ref : Option ℚ) :
    advantagePair (some 100) (some 150) = (some 50, some (50 / 150)) ∧
    advantagePair (some o) (some 0) = (some (0 - o), none) ∧
    advantagePair none ref = (none, none) ∧
    advantagePair own none = (none, none) ∧
    advantagePair (some o) (some r) =
      (some (r - o), if 0 < r then some ((r - o) / r) else none) ∧
    rowAdvantages own (some 150) (some 120) =
      (advantagePair own (some 150), advantagePair own (some 120)) := by
  refine ⟨?_, ?_, ?_, ?_, rfl, rfl⟩
  · simp only [advantagePair]
    norm_num
  · simp [advantagePair]
  · cases ref <;> rfl
  · cases own <;> rfl

/-- C8: `parseCurrency` (the source's `parsePrice`) extracts the first
digit run following a dollar marker, ignores thousands separators
deterministically, and returns `null` when no such digit run exists; in
particular there is no match in any text without a dollar sign. -/
theorem c8_parse_currency (t : String) :
    parsePrice "$1,234" = some 1234 ∧
    parsePrice "no price" = none ∧
    parsePrice "" = none ∧
    parsePrice "$1,234" = parsePrice "$1234" ∧
    ('$' ∉ t.toList → parsePrice t = none) :=
  ⟨by decide, by decide, by decide, by decide,
   fun h => parsePrice_eq_none_of_no_dollar t h⟩

/-- C8 witness: the no-digit-run case discharged at a concrete input. -/
theorem c8_parse_currency_witness : parsePrice "nightly rate unknown" = none :=
  (c8_parse_currency "nightly rate unknown").2.2.2.2 (by decide)

/-- C7 (code-bug evidence): the navigation URL of `getSparrowHotels` in
src/scrapeSparrowBid.js is the bare Explore endpoint for every date window
— the `checkIn` / `checkOut` arguments that src/index.js passes (with the
comment "using date-filtered Explore URL") never reach the URL — whereas
the date-filtered variant (src/unnamed/part_008) produces a genuinely
different, doubly URL-encoded filter URL through which the requested
check-in date is visible. -/
theorem c7_discovery_url_not_date_filtered :
    (∀ a b c d : String, getSparrowHotelsNavUrl a b = getSparrowHotelsNavUrl c d) ∧
    getSparrowHotelsNavUrl "2025-11-26" "2025-11-28" =
      "https://www.sparrowbid.com/explore" ∧
    strIncludes (getSparrowHotelsNavUrl "2025-11-26" "2025-11-28") "2025-11-26" =
      false ∧
    getSparrowHotelsNavUrl "2025-11-26" "2025-11-28" ≠
      sparrowFilteredExploreUrl "2025-11-26" "2025-11-28" ∧
    strIncludes (sparrowFilteredExploreUrl "2025-11-26" "2025-11-28") "2025-11-26" =
      true :=
  ⟨fun _ _ _ _ => rfl, rfl, by decide, by decide, by decide⟩

/-- C3 counterexample: the claim says a non-2xx, non-429/5xx HTTP status is
retried up to the bound like a transient failure, but the source returns
from the chunk immediately; a 404 on attempt 1 with a stub that would
answer 200 on attempt 2 ends after exactly one attempt, undelivered. -/
theorem c3_nonretriable_status_counterexample :
    postRowsChunk 4
        (fun a => if a = 1 then WebhookResponse.http 404 else WebhookResponse.http 200) =
      ⟨1, ChunkOutcome.abandoned, []⟩ ∧
    ChunkOutcome.abandoned ≠ ChunkOutcome.delivered :=
  ⟨by decide, by decide⟩

/-- C3 (amended): a 2xx delivers the batch on that attempt; a 429/5xx
sleeps `baseDelay * 2^(attempt-1)` and retries up to `maxRetries` total
attempts, after which the batch is abandoned; a network exception is
retried the same way; any other HTTP status is logged and the batch is
given up at once (not retried); and the pipeline posts every chunk
regardless of earlier outcomes. The stub behaviours 429,429,200 and
constant-500 give exactly the attempt counts and outcomes of the claim. -/
theorem c3_delivery_retry_classification :
    postRowsChunk 4
        (fun a => if a ≤ 2 then WebhookResponse.http 429 else WebhookResponse.http 200) =
      ⟨3, ChunkOutcome.delivered, [2000, 4000]⟩ ∧
    postRowsChunk 4 (fun _ => WebhookResponse.http 500) =
      ⟨4, ChunkOutcome.abandoned, [2000, 4000, 8000, 16000]⟩ ∧
    (∀ maxRetries respond s, 1 ≤ maxRetries → respond 1 = WebhookResponse.http s →
      statusOk s = true →
      postRowsChunk maxRetries respond = ⟨1, ChunkOutcome.delivered, []⟩) ∧
    (∀ maxRetries respond,
      (∀ a, 1 ≤ a → a ≤ maxRetries → transientResp (respond a) = true) →
      (postRowsChunk maxRetries respond).attempts = maxRetries ∧
      (postRowsChunk maxRetries respond).outcome = ChunkOutcome.abandoned) ∧
    (∀ maxRetries respond s, 1 ≤ maxRetries → respond 1 = WebhookResponse.http s →
      statusOk s = false → retriableStatus s = false →
      postRowsChunk maxRetries respond = ⟨1, ChunkOutcome.abandoned, []⟩) ∧
    (∀ maxRetries respond s, 2 ≤ maxRetries → respond 1 = WebhookResponse.netError →
      respond 2 = WebhookResponse.http s → statusOk s = true →
      postRowsChunk maxRetries respond = ⟨2, ChunkOutcome.delivered, [2000]⟩) ∧
    (∀ (α : Type) maxRetries (respond2 : Nat → Nat → WebhookResponse)
      (chunks : List (List α)) (idx : Nat),
      (deliverAll maxRetries respond2 chunks idx).length = chunks.length) := by
  refine ⟨by decide, by decide, ?_, ?_, ?_, ?_, ?_⟩
  · intro maxRetries respond s hmr hresp hok
    obtain ⟨k, rfl⟩ : ∃ k, maxRetries = k + 1 := ⟨maxRetries - 1, by omega⟩
    simp [postRowsChunk, postRowsChunkGo, hresp, hok]
  · intro maxRetries respond h
    have := postRowsChunkGo_transient respond maxRetries 1
      (fun a ha1 ha2 => h a ha1 (by omega))
    constructor
    · rw [postRowsChunk, this.1]
      omega
    · exact this.2
  · intro maxRetries respond s hmr hresp hok hretr
    obtain ⟨k, rfl⟩ : ∃ k, maxRetries = k + 1 := ⟨maxRetries - 1, by omega⟩
    simp [postRowsChunk, postRowsChunkGo, hresp, hok, hretr]
  · intro maxRetries respond s hmr hresp1 hresp2 hok
    obtain ⟨k, rfl⟩ : ∃ k, maxRetries = k + 2 := ⟨maxRetries - 2, by omega⟩
    simp [postRowsChunk, postRowsChunkGo, hresp1, hresp2, hok, BASE_DELAY_MS]
  · intro α maxRetries respond2 chunks
    induction chunks with
    | nil => intro idx; rfl
    | cons c rest ih =>
      intro idx
      simp [deliverAll, ih]

/-- C3 witness: the general clauses discharged at concrete stubs. -/
theorem c3_delivery_retry_classification_witness :
    postRowsChunk 3 (fun _ => WebhookResponse.http 204) =
      ⟨1, ChunkOutcome.delivered, []⟩ ∧
    (postRowsChunk 3 (fun _ => WebhookResponse.netError)).attempts = 3 ∧
    postRowsChunk 3 (fun _ => WebhookResponse.http 400) =
      ⟨1, ChunkOutcome.abandoned, []⟩ ∧
    postRowsChunk 3
        (fun a => if a = 1 then WebhookResponse.netError else WebhookResponse.http 200) =
      ⟨2, ChunkOutcome.delivered, [2000]⟩ :=
  ⟨c3_delivery_retry_classification.2.2.1 3 _ 204 (by decide) rfl (by decide),
   (c3_delivery_retry_classification.2.2.2.1 3 _ (fun a h1 h2 => by decide)).1,
   c3_delivery_retry_classification.2.2.2.2.1 3 _ 400 (by decide) rfl (by decide)
     (by decide),
   c3_delivery_retry_classification.2.2.2.2.2.1 3 _ 200 (by decide) (by decide)
     (by decide) (by decide)⟩

theorem getGoogle_missing (hotelName city checkIn checkOut : String)
    (dom : GoogleDom) (majorEvalOk : Bool) (h : checkIn = "" ∨ checkOut = "") :
    getGoogleHotelsPriceSimple hotelName city checkIn checkOut dom majorEvalOk =
      (Except.error requiredErrMsg, []) := by
  unfold getGoogleHotelsPriceSimple
  rw [if_pos h]

theorem getGoogle_mismatch (hotelName city checkIn checkOut : String)
    (dom : GoogleDom) (majorEvalOk : Bool)
    (hIn : checkIn ≠ "") (hOut : checkOut ≠ "")
    (hMis : (strIncludes dom.uiCheckIn (formatMMMD checkIn) &&
             strIncludes dom.uiCheckOut (formatMMMD checkOut)) = false) :
    getGoogleHotelsPriceSimple hotelName city checkIn checkOut dom majorEvalOk =
      (Except.ok
        { check_in := checkIn, check_out := checkOut,
          url := makeGoogleSearchUrl hotelName city,
          google_best := none, google_major_best := none },
       [ResolveStep.openPage]) := by
  unfold getGoogleHotelsPriceSimple
  rw [if_neg (fun hor => hor.elim hIn hOut)]
  simp only [hMis, Bool.false_eq_true, if_false]

theorem getGoogle_match_ok (hotelName city checkIn checkOut : String)
    (dom : GoogleDom)
    (hIn : checkIn ≠ "") (hOut : checkOut ≠ "")
    (hMat : (strIncludes dom.uiCheckIn (formatMMMD checkIn) &&
             strIncludes dom.uiCheckOut (formatMMMD checkOut)) = true) :
    getGoogleHotelsPriceSimple hotelName city checkIn checkOut dom true =
      (Except.ok
        { check_in := checkIn, check_out := checkOut,
          url := makeGoogleSearchUrl hotelName city,
          google_best := extractSelectedDatesPrice dom hotelName,
          google_major_best := extractMajorProviderPrice dom },
       [ResolveStep.openPage, ResolveStep.runBestExtraction,
        ResolveStep.runMajorExtraction]) := by
  unfold getGoogleHotelsPriceSimple
  rw [if_neg (fun hor => hor.elim hIn hOut)]
  simp only [hMat, if_true]

theorem getGoogle_match_evalFail (hotelName city checkIn checkOut : String)
    (dom : GoogleDom)
    (hIn : checkIn ≠ "") (hOut : checkOut ≠ "")
    (hMat : (strIncludes dom.uiCheckIn (formatMMMD checkIn) &&
             strIncludes dom.uiCheckOut (formatMMMD checkOut)) = true) :
    getGoogleHotelsPriceSimple hotelName city checkIn checkOut dom false =
      (Except.error evaluateErrMsg,
       [ResolveStep.openPage, ResolveStep.runBestExtraction]) := by
  unfold getGoogleHotelsPriceSimple
  rw [if_neg (fun hor => hor.elim hIn hOut)]
  simp only [hMat, if_true]
  rfl

/-- C1: with both dates supplied, when the read-back check-in and check-out
input strings do not both contain the requested dates' short-form
(`"MMM D"`) representation, the resolver returns both price fields as
`null` and performs no price extraction at all — neither the best-price
extraction nor the major-provider extraction appears in the run's trace. -/
theorem c1_date_mismatch_skips_extraction (hotelName city checkIn checkOut : String)
    (dom : GoogleDom) (majorEvalOk : Bool)
    (hIn : checkIn ≠ "") (hOut : checkOut ≠ "")
    (hMis : (strIncludes dom.uiCheckIn (formatMMMD checkIn) &&
             strIncludes dom.uiCheckOut (formatMMMD checkOut)) = false) :
    getGoogleHotelsPriceSimple hotelName city checkIn checkOut dom majorEvalOk =
      (Except.ok
        { check_in := checkIn, check_out := checkOut,
          url := makeGoogleSearchUrl hotelName city,
          google_best := none, google_major_best := none },
       [ResolveStep.openPage]) ∧
    ResolveStep.runBestExtraction ∉
      (getGoogleHotelsPriceSimple hotelName city checkIn checkOut dom majorEvalOk).2 ∧
    ResolveStep.runMajorExtraction ∉
      (getGoogleHotelsPriceSimple hotelName city checkIn checkOut dom majorEvalOk).2 := by
  have h := getGoogle_mismatch hotelName city checkIn checkOut dom majorEvalOk hIn hOut hMis
  refine ⟨h, ?_, ?_⟩ <;> rw [h] <;> simp

/-- C1 witness: a concrete mismatching read-back (empty picker inputs). -/
theorem c1_date_mismatch_skips_extraction_witness :
    getGoogleHotelsPriceSimple "Hotel X" "New York, US - 5385.12 mi away"
        "2025-11-26" "2025-11-28" ⟨[], [], "", ""⟩ true =
      (Except.ok
        { check_in := "2025-11-26", check_out := "2025-11-28",
          url := makeGoogleSearchUrl "Hotel X" "New York, US - 5385.12 mi away",
          google_best := none, google_major_best := none },
       [ResolveStep.openPage]) :=
  (c1_date_mismatch_skips_extraction "Hotel X" "New York, US - 5385.12 mi away"
    "2025-11-26" "2025-11-28" ⟨[], [], "", ""⟩ true
    (by decide) (by decide) (by decide)).1

/-- C2 counterexample: the source implements no card-title (or body-text)
fallback. On a page with no matching `a[aria-label]` anchor but a listing
container whose title matches and shows `"$77 nightly"`, the specified
card-title strategy yields 77 while the resolver's `bestPrice` is `null`,
so `bestPrice` does not equal the card-title strategy's value. -/
theorem c2_fallback_chain_counterexample :
    extractSelectedDatesPrice ⟨[], [], "Wed, Nov 26", "Fri, Nov 28"⟩ "Hotel X" =
      none ∧
    cardTitleStrategy [⟨"Hotel X", ["$77 nightly"]⟩] "Hotel X" = some 77 ∧
    (getGoogleHotelsPriceSimple "Hotel X" "New York, US" "2025-11-26" "2025-11-28"
        ⟨[], [], "Wed, Nov 26", "Fri, Nov 28"⟩ true).1 =
      Except.ok
        { check_in := "2025-11-26", check_out := "2025-11-28",
          url := makeGoogleSearchUrl "Hotel X" "New York, US",
          google_best := none, google_major_best := none } ∧
    some 77 ≠ (none : Option Nat) :=
  ⟨by decide, by decide, by decide, by decide⟩

/-- C2 (amended): `bestPrice` is produced by the single aria-label
fuzzy-match strategy (`extractSelectedDatesPrice`); there is no card-title
or body-text fallback, so whenever that strategy has no match, the
resolver's `bestPrice` is `null`. -/
theorem c2_single_strategy_best_price (hotelName city checkIn checkOut : String)
    (dom : GoogleDom)
    (hIn : checkIn ≠ "") (hOut : checkOut ≠ "")
    (hMat : (strIncludes dom.uiCheckIn (formatMMMD checkIn) &&
             strIncludes dom.uiCheckOut (formatMMMD checkOut)) = true)
    (hNoAria : extractSelectedDatesPrice dom hotelName = none) :
    getGoogleHotelsPriceSimple hotelName city checkIn checkOut dom true =
      (Except.ok
        { check_in := checkIn, check_out := checkOut,
          url := makeGoogleSearchUrl hotelName city,
          google_best := none,
          google_major_best := extractMajorProviderPrice dom },
       [ResolveStep.openPage, ResolveStep.runBestExtraction,
        ResolveStep.runMajorExtraction]) := by
  rw [getGoogle_match_ok hotelName city checkIn checkOut dom hIn hOut hMat, hNoAria]

/-- C2 witness: a matching date read-back with no anchor match. -/
theorem c2_single_strategy_best_price_witness :
    getGoogleHotelsPriceSimple "Hotel X" "New York, US" "2025-11-26" "2025-11-28"
        ⟨[], [], "Wed, Nov 26", "Fri, Nov 28"⟩ true =
      (Except.ok
        { check_in := "2025-11-26", check_out := "2025-11-28",
          url := makeGoogleSearchUrl "Hotel X" "New York, US",
          google_best := none,
          google_major_best :=
            extractMajorProviderPrice ⟨[], [], "Wed, Nov 26", "Fri, Nov 28"⟩ },
       [ResolveStep.openPage, ResolveStep.runBestExtraction,
        ResolveStep.runMajorExtraction]) :=
  c2_single_strategy_best_price "Hotel X" "New York, US" "2025-11-26" "2025-11-28"
    ⟨[], [], "Wed, Nov 26", "Fri, Nov 28"⟩ (by decide) (by decide) (by decide)
    (by decide)

/-- C4 counterexample: the claim says an exception in the major-provider
step is caught and degrades to a `null` `majorProviderPrice` while the
`bestPrice` already obtained is still returned; the source wraps the step
in no try/catch, so a rejected evaluation aborts the whole resolution with
an error instead of returning any result object. -/
theorem c4_major_uncaught_exception_counterexample :
    (getGoogleHotelsPriceSimple "Hotel X" "New York, US" "2025-11-26" "2025-11-28"
        ⟨[⟨"Hotel X", ["$129 nightly"]⟩], [], "Wed, Nov 26", "Fri, Nov 28"⟩
        false).1 =
      Except.error evaluateErrMsg ∧
    (Except.error evaluateErrMsg :
        Except String ReferencePriceResult) ≠
      Except.ok
        { check_in := "2025-11-26", check_out := "2025-11-28",
          url := makeGoogleSearchUrl "Hotel X" "New York, US",
          google_best := some 129, google_major_best := none } :=
  ⟨by decide, by decide⟩

/-- C4 (amended): on the success branch, `majorProviderPrice` equals the
minimum over allow-listed provider blocks of the per-block minimum currency
amount (`null` when no block matches), where a block contributes only when
its provider name matches the fixed major-brand allow-list; however the
resolver applies no try/catch to this step, so a rejected browser
evaluation aborts the whole resolution with an error instead of degrading
to a `null` `majorProviderPrice`. -/
theorem c4_major_provider_extraction (hotelName city checkIn checkOut : String)
    (dom : GoogleDom) (v : Nat)
    (hIn : checkIn ≠ "") (hOut : checkOut ≠ "")
    (hMat : (strIncludes dom.uiCheckIn (formatMMMD checkIn) &&
             strIncludes dom.uiCheckOut (formatMMMD checkOut)) = true) :
    (getGoogleHotelsPriceSimple hotelName city checkIn checkOut dom true =
      (Except.ok
        { check_in := checkIn, check_out := checkOut,
          url := makeGoogleSearchUrl hotelName city,
          google_best := extractSelectedDatesPrice dom hotelName,
          google_major_best := extractMajorProviderPrice dom },
       [ResolveStep.openPage, ResolveStep.runBestExtraction,
        ResolveStep.runMajorExtraction])) ∧
    (extractMajorProviderPrice dom = some v ↔
      v ∈ dom.providerBlocks.filterMap blockMinPrice ∧
        ∀ w ∈ dom.providerBlocks.filterMap blockMinPrice, v ≤ w) ∧
    (extractMajorProviderPrice dom = none ↔
      dom.providerBlocks.filterMap blockMinPrice = []) ∧
    (∀ b w, blockMinPrice b = some w →
      (∃ nameText, b.nameEl = some nameText ∧
        (majorBrands.any fun brand =>
          strIncludes (jsLower (jsTrimStr nameText)) brand) = true) ∧
      w ∈ blockPrices b ∧ ∀ u ∈ blockPrices b, w ≤ u) ∧
    (getGoogleHotelsPriceSimple hotelName city checkIn checkOut dom false =
      (Except.error evaluateErrMsg,
       [ResolveStep.openPage, ResolveStep.runBestExtraction])) := by
  refine ⟨getGoogle_match_ok hotelName city checkIn checkOut dom hIn hOut hMat,
    ?_, ?_, ?_, getGoogle_match_evalFail hotelName city checkIn checkOut dom hIn hOut hMat⟩
  · cases hfm : dom.providerBlocks.filterMap blockMinPrice with
    | nil => simp [extractMajorProviderPrice, hfm]
    | cons p ps =>
      have hEq : extractMajorProviderPrice dom = some (ps.foldl min p) := by
        unfold extractMajorProviderPrice
        rw [hfm]
      rw [hEq]
      constructor
      · intro hv
        have hv2 : ps.foldl min p = v := (Option.some.injEq _ _).mp hv
        rw [← hv2]
        exact ⟨foldlMin_mem p ps, foldlMin_le p ps⟩
      · rintro ⟨hmem, hle⟩
        have h1 : ps.foldl min p ≤ v := foldlMin_le p ps v hmem
        have h2 : v ≤ ps.foldl min p := hle _ (foldlMin_mem p ps)
        exact congrArg some (Nat.le_antisymm h1 h2)
  · cases hfm : dom.providerBlocks.filterMap blockMinPrice with
    | nil => simp [extractMajorProviderPrice, hfm]
    | cons p ps =>
      have hEq : extractMajorProviderPrice dom = some (ps.foldl min p) := by
        unfold extractMajorProviderPrice
        rw [hfm]
      rw [hEq]
      simp
  · intro b w hw
    cases hname : b.nameEl with
    | none => simp [blockMinPrice, hname] at hw
    | some nameText =>
      by_cases hmaj :
          (majorBrands.any fun brand =>
            strIncludes (jsLower (jsTrimStr nameText)) brand) = true
      · cases hbp : blockPrices b with
        | nil => simp [blockMinPrice, hname, hmaj, hbp] at hw
        | cons p ps =>
          simp [blockMinPrice, hname, hmaj, hbp] at hw
          refine ⟨⟨nameText, rfl, hmaj⟩, ?_, ?_⟩
          · rw [← hw]
            exact foldlMin_mem p ps
          · intro u hu
            rw [← hw]
            exact foldlMin_le p ps u hu
      · have hmaj2 : (majorBrands.any fun brand =>
            strIncludes (jsLower (jsTrimStr nameText)) brand) = false :=
          Bool.eq_false_iff.mpr hmaj
        simp [blockMinPrice, hname, hmaj2] at hw

/-- C4 witness: a concrete page with one matching anchor and one
major-provider block, run both with a resolving and a rejecting
major-provider evaluation. -/
theorem c4_major_provider_extraction_witness :
    getGoogleHotelsPriceSimple "Hotel X" "New York, US" "2025-11-26" "2025-11-28"
        ⟨[⟨"Hotel X", ["$129 nightly"]⟩], [⟨some "Expedia.com", ["$140", "$120"]⟩],
         "Wed, Nov 26", "Fri, Nov 28"⟩ true =
      (Except.ok
        { check_in := "2025-11-26", check_out := "2025-11-28",
          url := makeGoogleSearchUrl "Hotel X" "New York, US",
          google_best := some 129, google_major_best := some 120 },
       [ResolveStep.openPage, ResolveStep.runBestExtraction,
        ResolveStep.runMajorExtraction]) ∧
    getGoogleHotelsPriceSimple "Hotel X" "New York, US" "2025-11-26" "2025-11-28"
        ⟨[⟨"Hotel X", ["$129 nightly"]⟩], [⟨some "Expedia.com", ["$140", "$120"]⟩],
         "Wed, Nov 26", "Fri, Nov 28"⟩ false =
      (Except.error evaluateErrMsg,
       [ResolveStep.openPage, ResolveStep.runBestExtraction]) := by
  have h := c4_major_provider_extraction "Hotel X" "New York, US" "2025-11-26"
    "2025-11-28"
    ⟨[⟨"Hotel X", ["$129 nightly"]⟩], [⟨some "Expedia.com", ["$140", "$120"]⟩],
     "Wed, Nov 26", "Fri, Nov 28"⟩ 120 (by decide) (by decide) (by decide)
  refine ⟨?_, h.2.2.2.2⟩
  rw [h.1]
  decide

/-- C10: every result object the resolver returns (date-mismatch branch and
success branch alike) carries the requested check-in and check-out strings
— never the picker's read-back strings — and a missing check-in or
check-out makes the function throw before any page is opened (empty trace). -/
theorem c10_result_dates_and_required_args (hotelName city checkIn checkOut : String)
    (dom : GoogleDom) (majorEvalOk : Bool) :
    (match (getGoogleHotelsPriceSimple hotelName city checkIn checkOut dom majorEvalOk).1 with
     | Except.ok r => r.check_in = checkIn ∧ r.check_out = checkOut
     | Except.error _ => True) ∧
    getGoogleHotelsPriceSimple hotelName city "" checkOut dom majorEvalOk =
      (Except.error requiredErrMsg, []) ∧
    getGoogleHotelsPriceSimple hotelName city checkIn "" dom majorEvalOk =
      (Except.error requiredErrMsg, []) := by
  refine ⟨?_,
    getGoogle_missing hotelName city "" checkOut dom majorEvalOk (Or.inl rfl),
    getGoogle_missing hotelName city checkIn "" dom majorEvalOk (Or.inr rfl)⟩
  by_cases hIn : checkIn = ""
  · rw [getGoogle_missing hotelName city checkIn checkOut dom majorEvalOk (Or.inl hIn)]
    trivial
  by_cases hOut : checkOut = ""
  · rw [getGoogle_missing hotelName city checkIn checkOut dom majorEvalOk (Or.inr hOut)]
    trivial
  by_cases hMat :
      (strIncludes dom.uiCheckIn (formatMMMD checkIn) &&
       strIncludes dom.uiCheckOut (formatMMMD checkOut)) = true
  · cases majorEvalOk with
    | true =>
      rw [getGoogle_match_ok hotelName city checkIn checkOut dom hIn hOut hMat]
      exact ⟨rfl, rfl⟩
    | false =>
      rw [getGoogle_match_evalFail hotelName city checkIn checkOut dom hIn hOut hMat]
      trivial
  · rw [getGoogle_mismatch hotelName city checkIn checkOut dom majorEvalOk hIn hOut
      (Bool.eq_false_iff.mpr hMat)]
    exact ⟨rfl, rfl⟩

theorem takeBeforeSep_isPrefixList (l : List Char) : takeBeforeSep l <+: l := by
  induction l with
  | nil => exact List.nil_prefix
  | cons c rest ih =>
    rw [takeBeforeSep]
    by_cases h : citySep.isPrefixOf (c :: rest) = true
    · rw [if_pos h]
      exact List.nil_prefix
    · rw [if_neg h]
      exact List.cons_prefix_cons.mpr ⟨rfl, ih⟩

theorem containsSeg_iff_infixOp (n l : List Char) : containsSeg n l = true ↔ n <:+: l := by
  induction l with
  | nil => simp [containsSeg, List.isEmpty_iff]
  | cons c rest ih =>
    rw [containsSeg, List.infix_cons_iff, Bool.or_eq_true,
      List.isPrefixOf_iff_prefix, ih]

theorem not_containsSeg_takeBeforeSep (l : List Char) :
    containsSeg citySep (takeBeforeSep l) = false := by
  induction l with
  | nil => decide
  | cons c rest ih =>
    rw [takeBeforeSep]
    by_cases h : citySep.isPrefixOf (c :: rest) = true
    · rw [if_pos h]
      decide
    · rw [if_neg h, containsSeg]
      apply Bool.eq_false_iff.mpr
      intro hx
      rw [Bool.or_eq_true] at hx
      rcases hx with hx | hx
      · have hpre : citySep <+: c :: takeBeforeSep rest :=
          List.isPrefixOf_iff_prefix.mp hx
        have hpre2 : c :: takeBeforeSep rest <+: c :: rest :=
          List.cons_prefix_cons.mpr ⟨rfl, takeBeforeSep_isPrefixList rest⟩
        exact h (List.isPrefixOf_iff_prefix.mpr (hpre.trans hpre2))
      · rw [ih] at hx
        exact absurd hx (by simp)

theorem takeBeforeSep_eq_self (l : List Char) (h : containsSeg citySep l = false) :
    takeBeforeSep l = l := by
  induction l with
  | nil => rfl
  | cons c rest ih =>
    rw [containsSeg, Bool.or_eq_false_iff] at h
    rw [takeBeforeSep, if_neg (by rw [h.1]; simp), ih h.2]

theorem dropWhile_head_false (p : α → Bool) (l : List α) (b : α) (bs : List α)
    (h : l.dropWhile p = b :: bs) : p b = false := by
  induction l with
  | nil => simp [List.dropWhile] at h
  | cons c rest ih =>
    rw [List.dropWhile_cons] at h
    by_cases hc : p c = true
    · rw [if_pos hc] at h
      exact ih h
    · rw [if_neg (by simp [hc])] at h
      have hcb : c = b := (List.cons.injEq _ _ _ _).mp h |>.1
      rw [← hcb]
      exact Bool.eq_false_iff.mpr hc

theorem dropWhile_dropWhile (p : α → Bool) (l : List α) :
    (l.dropWhile p).dropWhile p = l.dropWhile p := by
  cases hd : l.dropWhile p with
  | nil => rfl
  | cons b bs =>
    rw [List.dropWhile_cons, dropWhile_head_false p l b bs hd]
    simp

theorem dropWhile_eq_self_of_prefix_dropWhile (p : α → Bool) (l B : List α)
    (hB : B <+: l.dropWhile p) : B.dropWhile p = B := by
  cases B with
  | nil => rfl
  | cons b bs =>
    obtain ⟨t, ht⟩ := hB
    have hd : l.dropWhile p = b :: (bs ++ t) := by
      rw [← ht]
      simp
    rw [List.dropWhile_cons, dropWhile_head_false p l b (bs ++ t) hd]
    simp

theorem jsTrim_isPrefixList (l : List Char) : jsTrim l <+: l.dropWhile jsSpace := by
  have h2 := List.reverse_prefix.mpr
    (List.dropWhile_suffix (l := (l.dropWhile jsSpace).reverse) jsSpace)
  rw [List.reverse_reverse] at h2
  exact h2

theorem jsTrim_isInfix (l : List Char) : jsTrim l <:+: l :=
  (jsTrim_isPrefixList l).isInfix.trans (List.dropWhile_suffix jsSpace).isInfix

theorem jsTrim_idem (l : List Char) : jsTrim (jsTrim l) = jsTrim l := by
  have hstep1 : (jsTrim l).dropWhile jsSpace = jsTrim l :=
    dropWhile_eq_self_of_prefix_dropWhile jsSpace l (jsTrim l) (jsTrim_isPrefixList l)
  show (((jsTrim l).dropWhile jsSpace).reverse.dropWhile jsSpace).reverse = jsTrim l
  rw [hstep1]
  have hrev : (jsTrim l).reverse = (l.dropWhile jsSpace).reverse.dropWhile jsSpace := by
    unfold jsTrim
    rw [List.reverse_reverse]
  rw [hrev, dropWhile_dropWhile]
  rfl

theorem containsSeg_eq_false_of_infix (n m mm : List Char)
    (h : containsSeg n m = false) (hmm : mm <:+: m) : containsSeg n mm = false := by
  apply Bool.eq_false_iff.mpr
  intro hx
  have h2 : n <:+: m := ((containsSeg_iff_infixOp n mm).mp hx).trans hmm
  rw [(containsSeg_iff_infixOp n m).mpr h2] at h
  exact absurd h (by simp)

/-- C9: `cleanLocation` (the source's `cleanCity`) returns only the trimmed
portion of the input preceding the `" - "` distance-annotation separator —
on `"New York, US - 5385.12 mi away"` it returns `"New York, US"` — and it
is idempotent on every string. -/
theorem c9_clean_location_idempotent (x : String) :
    cleanCity "New York, US - 5385.12 mi away" = "New York, US" ∧
    cleanCity (cleanCity x) = cleanCity x := by
  refine ⟨by decide, ?_⟩
  by_cases hx : x = ""
  · rw [hx]
    decide
  · have hcx : cleanCity x = String.mk (jsTrim (takeBeforeSep x.toList)) := by
      rw [cleanCity, if_neg hx]
    rw [hcx]
    by_cases hyy : String.mk (jsTrim (takeBeforeSep x.toList)) = ""
    · rw [cleanCity, if_pos hyy, hyy]
    · rw [cleanCity, if_neg hyy]
      rw [show (String.mk (jsTrim (takeBeforeSep x.toList))).toList =
        jsTrim (takeBeforeSep x.toList) from rfl]
      have hsf : containsSeg citySep (jsTrim (takeBeforeSep x.toList)) = false :=
        containsSeg_eq_false_of_infix _ _ _ (not_containsSeg_takeBeforeSep x.toList)
          (jsTrim_isInfix _)
      rw [takeBeforeSep_eq_self _ hsf, jsTrim_idem]

theorem discInv_empty : DiscInv [] ⟨[], []⟩ := by
  refine ⟨rfl, List.nodup_nil, ?_, ?_⟩ <;> intro x hx <;> simp at hx

theorem discInv_skip (stream : List ListingCandidate) (st : DiscoveryState)
    (h : ListingCandidate) (hInv : DiscInv stream st) (hmem : dedupKey h ∈ st.seen) :
    DiscInv (stream ++ [h]) st := by
  obtain ⟨hseen, hnodup, hclosed, hfirst⟩ := hInv
  refine ⟨hseen, hnodup, ?_, ?_⟩
  · intro x hx
    rcases List.mem_append.mp hx with hx | hx
    · exact hclosed x hx
    · rw [List.mem_singleton.mp hx]
      exact hmem
  · intro c hc
    rw [List.find?_append, hfirst c hc]
    rfl

theorem discInv_push (stream : List ListingCandidate) (st : DiscoveryState)
    (h : ListingCandidate) (hInv : DiscInv stream st) (hmem : dedupKey h ∉ st.seen) :
    DiscInv (stream ++ [h]) ⟨st.results ++ [h], st.seen ++ [dedupKey h]⟩ := by
  obtain ⟨hseen, hnodup, hclosed, hfirst⟩ := hInv
  have hkey_not : dedupKey h ∉ st.results.map dedupKey := by
    rw [← hseen]
    exact hmem
  refine ⟨?_, ?_, ?_, ?_⟩
  · show st.seen ++ [dedupKey h] = (st.results ++ [h]).map dedupKey
    rw [List.map_append, hseen]
    rfl
  · show ((st.results ++ [h]).map dedupKey).Nodup
    rw [List.map_append]
    refine List.Nodup.append hnodup (List.nodup_singleton _) ?_
    intro a ha hb
    rw [List.map_singleton, List.mem_singleton] at hb
    rw [hb] at ha
    exact hkey_not ha
  · intro x hx
    rcases List.mem_append.mp hx with hx | hx
    · exact List.mem_append_left _ (hclosed x hx)
    · rw [List.mem_singleton.mp hx]
      exact List.mem_append_right _ (List.mem_singleton_self _)
  · intro c hc
    rcases List.mem_append.mp hc with hc | hc
    · rw [List.find?_append, hfirst c hc]
      rfl
    · rw [List.mem_singleton.mp hc, List.find?_append]
      have hnone : stream.find? (fun x => dedupKey x == dedupKey h) = none := by
        rw [List.find?_eq_none]
        intro x hx hbeq
        exact hmem (eq_of_beq hbeq ▸ hclosed x hx)
      rw [hnone]
      simp [List.find?]

theorem pushUnique_spec (m : Nat) (page : List ListingCandidate) :
    ∀ (st : DiscoveryState) (stream : List ListingCandidate), DiscInv stream st →
    ∃ q t, page = q ++ t ∧
      ((pushUnique m st page).2 = false → t = []) ∧
      DiscInv (stream ++ q) (pushUnique m st page).1 := by
  induction page with
  | nil =>
    intro st stream hInv
    refine ⟨[], [], rfl, fun _ => rfl, ?_⟩
    rw [List.append_nil]
    exact hInv
  | cons h rest ih =>
    intro st stream hInv
    by_cases hmem : dedupKey h ∈ st.seen
    · have hstep : pushUnique m st (h :: rest) = pushUnique m st rest := by
        rw [pushUnique, if_pos hmem]
      rw [hstep]
      obtain ⟨q, t, hqt, hdone, hInv2⟩ :=
        ih st (stream ++ [h]) (discInv_skip stream st h hInv hmem)
      refine ⟨h :: q, t, ?_, hdone, ?_⟩
      · rw [List.cons_append, hqt]
      · rw [show stream ++ h :: q = (stream ++ [h]) ++ q by simp]
        exact hInv2
    · by_cases hcap : m ≤ (st.results ++ [h]).length
      · have hstep : pushUnique m st (h :: rest) =
            (⟨st.results ++ [h], st.seen ++ [dedupKey h]⟩, true) := by
          rw [pushUnique, if_neg hmem, if_pos hcap]
        rw [hstep]
        refine ⟨[h], rest, rfl, ?_, ?_⟩
        · intro hfalse
          exact absurd hfalse (by simp)
        · exact discInv_push stream st h hInv hmem
      · have hstep : pushUnique m st (h :: rest) =
            pushUnique m ⟨st.results ++ [h], st.seen ++ [dedupKey h]⟩ rest := by
          rw [pushUnique, if_neg hmem, if_neg hcap]
        rw [hstep]
        obtain ⟨q, t, hqt, hdone, hInv2⟩ :=
          ih ⟨st.results ++ [h], st.seen ++ [dedupKey h]⟩ (stream ++ [h])
            (discInv_push stream st h hInv hmem)
        refine ⟨h :: q, t, ?_, hdone, ?_⟩
        · rw [List.cons_append, hqt]
        · rw [show stream ++ h :: q = (stream ++ [h]) ++ q by simp]
          exact hInv2

theorem paginate_spec (m : Nat) (pages : List (List ListingCandidate)) :
    ∀ (st : DiscoveryState) (stream : List ListingCandidate), DiscInv stream st →
    ∃ procd rest2, pages.flatten = procd ++ rest2 ∧
      DiscInv (stream ++ procd) (paginate m st pages) := by
  induction pages with
  | nil =>
    intro st stream hInv
    refine ⟨[], [], rfl, ?_⟩
    rw [List.append_nil]
    exact hInv
  | cons p ps ih =>
    intro st stream hInv
    obtain ⟨q, t, hqt, hdone, hInv2⟩ := pushUnique_spec m p st stream hInv
    cases hflag : (pushUnique m st p).2 with
    | true =>
      have hstep : paginate m st (p :: ps) = (pushUnique m st p).1 := by
        rw [paginate, hflag]
        simp
      rw [hstep]
      refine ⟨q, t ++ ps.flatten, ?_, hInv2⟩
      rw [List.flatten_cons, hqt]
      simp
    | false =>
      have hstep : paginate m st (p :: ps) =
          paginate m (pushUnique m st p).1 ps := by
        rw [paginate, hflag]
        simp
      rw [hstep]
      have ht : t = [] := hdone hflag
      obtain ⟨procd, rest2, hj2, hInv3⟩ :=
        ih (pushUnique m st p).1 (stream ++ q) hInv2
      refine ⟨q ++ procd, rest2, ?_, ?_⟩
      · rw [List.flatten_cons, hqt, ht, List.append_nil, hj2]
        simp
      · rw [← List.append_assoc]
        exact hInv3

theorem pushUnique_len (m : Nat) (page : List ListingCandidate) :
    ∀ st : DiscoveryState,
      ((pushUnique m st page).2 = false →
        ((pushUnique m st page).1.results.length < m ∨
         (pushUnique m st page).1.results = st.results)) ∧
      ((pushUnique m st page).2 = true →
        ((pushUnique m st page).1.results.length ≤ m ∨
         (pushUnique m st page).1.results.length = st.results.length + 1)) := by
  induction page with
  | nil =>
    intro st
    constructor
    · intro _
      exact Or.inr rfl
    · intro hx
      exact absurd hx (by simp [pushUnique])
  | cons h rest ih =>
    intro st
    by_cases hmem : dedupKey h ∈ st.seen
    · have hstep : pushUnique m st (h :: rest) = pushUnique m st rest := by
        rw [pushUnique, if_pos hmem]
      rw [hstep]
      exact ih st
    · by_cases hcap : m ≤ (st.results ++ [h]).length
      · have hstep : pushUnique m st (h :: rest) =
            (⟨st.results ++ [h], st.seen ++ [dedupKey h]⟩, true) := by
          rw [pushUnique, if_neg hmem, if_pos hcap]
        rw [hstep]
        constructor
        · intro hx
          exact absurd hx (by simp)
        · intro _
          right
          simp
      · have hstep : pushUnique m st (h :: rest) =
            pushUnique m ⟨st.results ++ [h], st.seen ++ [dedupKey h]⟩ rest := by
          rw [pushUnique, if_neg hmem, if_neg hcap]
        rw [hstep]
        have hlen : st.results.length + 1 < m := by
          simp only [List.length_append, List.length_singleton] at hcap
          omega
        constructor
        · intro hfalse
          rcases (ih _).1 hfalse with h1 | h1
          · exact Or.inl h1
          · left
            rw [h1]
            simp only [List.length_append, List.length_singleton]
            omega
        · intro htrue
          rcases (ih _).2 htrue with h1 | h1
          · exact Or.inl h1
          · left
            rw [h1]
            simp only [List.length_append, List.length_singleton]
            omega

theorem paginate_len (m : Nat) (pages : List (List ListingCandidate)) :
    ∀ st : DiscoveryState, st.results.length ≤ m →
      (paginate m st pages).results.length ≤ m + 1 := by
  induction pages with
  | nil =>
    intro st hst
    rw [paginate]
    omega
  | cons p ps ih =>
    intro st hst
    cases hflag : (pushUnique m st p).2 with
    | true =>
      have hstep : paginate m st (p :: ps) = (pushUnique m st p).1 := by
        rw [paginate, hflag]
        simp
      rw [hstep]
      rcases (pushUnique_len m p st).2 hflag with h1 | h1
      · omega
      · omega
    | false =>
      have hstep : paginate m st (p :: ps) = paginate m (pushUnique m st p).1 ps := by
        rw [paginate, hflag]
        simp
      rw [hstep]
      apply ih
      rcases (pushUnique_len m p st).1 hflag with h1 | h1
      · omega
      · rw [h1]
        exact hst

/-- C6 counterexample: with `maxHotels = 1` and two pages holding one
unique card each, `getSparrowHotels` returns two candidates — exceeding
`maxHotels` — because the cap check runs only after a push and page 1's
`pushUnique` flag is discarded. -/
theorem c6_discovery_cap_counterexample :
    (getSparrowHotels 1
        [[⟨"A", "X", none, ""⟩], [⟨"B", "Y", none, ""⟩]]).length = 2 ∧
    ¬((getSparrowHotels 1
        [[⟨"A", "X", none, ""⟩], [⟨"B", "Y", none, ""⟩]]).length ≤ 1) :=
  ⟨by decide, by decide⟩

/-- C6 (amended): the candidate list returned by `getSparrowHotels` holds
at most one candidate per case-insensitive `lower(name)+"|"+lower(city)`
key (its key list is duplicate-free, so a later duplicate never replaces an
earlier candidate); whenever page 1 does not already reach the cap (the one
flag the code ignores), every returned candidate is the first card carrying
its key across the whole card stream; and the returned list's length never
exceeds `maxHotels + 1`. -/
theorem c6_discovery_dedup_invariants (m : Nat)
    (pages : List (List ListingCandidate)) (hm : 1 ≤ m) :
    ((getSparrowHotels m pages).map dedupKey).Nodup ∧
    (∀ p1 rest, pages = p1 :: rest →
      (pushUnique m ⟨[], []⟩ p1).2 = false →
      ∀ c ∈ getSparrowHotels m pages,
        pages.flatten.find? (fun x => dedupKey x == dedupKey c) = some c) ∧
    (getSparrowHotels m pages).length ≤ m + 1 := by
  cases pages with
  | nil =>
    refine ⟨by simp [getSparrowHotels], ?_, by simp [getSparrowHotels]⟩
    intro p1 rest heq
    exact absurd heq (by simp)
  | cons p1 rest =>
    obtain ⟨q, t, hqt, hdone, hInv1⟩ :=
      pushUnique_spec m p1 ⟨[], []⟩ [] discInv_empty
    rw [List.nil_append] at hInv1
    obtain ⟨procd, rest2, hj2, hInv2⟩ :=
      paginate_spec m rest (pushUnique m ⟨[], []⟩ p1).1 q hInv1
    have hres : getSparrowHotels m (p1 :: rest) =
        (paginate m (pushUnique m ⟨[], []⟩ p1).1 rest).results := rfl
    obtain ⟨hseen, hnodup, hclosed, hfirst⟩ := hInv2
    refine ⟨?_, ?_, ?_⟩
    · rw [hres]
      exact hnodup
    · intro p1x restx heq hflag
      injection heq with h1 h2
      rw [← h1] at hflag
      have ht : t = [] := hdone hflag
      intro c hc
      rw [hres] at hc
      have hfind := hfirst c hc
      have hflat : (p1 :: rest).flatten = (q ++ procd) ++ rest2 := by
        rw [List.flatten_cons, hqt, ht, List.append_nil, hj2]
        simp
      rw [hflat, List.find?_append, hfind]
      rfl
    · rw [hres]
      apply paginate_len m rest
      cases hfl : (pushUnique m ⟨[], []⟩ p1).2 with
      | false =>
        rcases (pushUnique_len m p1 ⟨[], []⟩).1 hfl with h1 | h1
        · omega
        · rw [h1]
          simp
      | true =>
        rcases (pushUnique_len m p1 ⟨[], []⟩).2 hfl with h1 | h1
        · exact h1
        · rw [h1]
          simpa using hm

/-- C6 witness: three unique cards across two pages with duplicated keys
(case-flipped) across the page boundary; the cap of 3 is not reached on
page 1. -/
theorem c6_discovery_dedup_invariants_witness :
    ((getSparrowHotels 3
        [[⟨"A", "X", none, ""⟩, ⟨"B", "Y", none, ""⟩, ⟨"a", "x", some "$1", "u"⟩],
         [⟨"b", "y", none, "z"⟩, ⟨"C", "Z", none, ""⟩]]).map dedupKey).Nodup ∧
    ([[⟨"A", "X", none, ""⟩, ⟨"B", "Y", none, ""⟩, ⟨"a", "x", some "$1", "u"⟩],
      [⟨"b", "y", none, "z"⟩, ⟨"C", "Z", none, ""⟩]] :
        List (List ListingCandidate)).flatten.find?
      (fun x => dedupKey x == dedupKey (⟨"C", "Z", none, ""⟩ : ListingCandidate)) =
      some ⟨"C", "Z", none, ""⟩ ∧
    (getSparrowHotels 3
        [[⟨"A", "X", none, ""⟩, ⟨"B", "Y", none, ""⟩, ⟨"a", "x", some "$1", "u"⟩],
         [⟨"b", "y", none, "z"⟩, ⟨"C", "Z", none, ""⟩]]).length ≤ 4 := by
  have h := c6_discovery_dedup_invariants 3
    [[⟨"A", "X", none, ""⟩, ⟨"B", "Y", none, ""⟩, ⟨"a", "x", some "$1", "u"⟩],
     [⟨"b", "y", none, "z"⟩, ⟨"C", "Z", none, ""⟩]] (by decide)
  exact ⟨h.1,
    h.2.1 _ _ rfl (by decide) ⟨"C", "Z", none, ""⟩ (by decide),
    h.2.2⟩
